import Mathlib

/-!
Verification of the CSS selector builder and JSON helpers of
`src/05-objects-tasks.js` (repository `core-js-101`).

The JavaScript code is shallowly embedded: the mutable `MyBuilder` class
becomes a structure `MyBuilder` together with functions that take the
receiver state and return the new state; a method that can `throw` returns
`Option BuilderError × MyBuilder`, where the first component is the raised
error (`none` on success) and the second component is the state of the
receiver when the call returns or the exception propagates.  Fragment
kinds are the numeric constants of `TYPES_OF_PARTS`, and the
`partsPresence` array of six counters is a `List Nat`.
-/

/-- The two error conditions of the builder.  In the source both are
thrown as `Error` with distinct messages (`DuplicateFragmentError` and
`OutOfOrderError` in the specification's terminology). -/
inductive BuilderError where
  | duplicateFragment
  | outOfOrder
deriving Repr, DecidableEq

/-- The message text each error is thrown with in the source. -/
def BuilderError.message : BuilderError → String
  | .duplicateFragment =>
      "Element, id and pseudo-element should not occur more then one time inside the selector"
  | .outOfOrder =>
      "Selector parts should be arranged in the following order: element, id, class, attribute, pseudo-class, pseudo-element"

/-- `TYPES_OF_PARTS` of the source: the fixed numeric kind constants. -/
abbrev TYPES_OF_PARTS.ELEMENT : Nat := 0

abbrev TYPES_OF_PARTS.ID : Nat := 1

abbrev TYPES_OF_PARTS.CLASS : Nat := 2

abbrev TYPES_OF_PARTS.ATTR : Nat := 3

abbrev TYPES_OF_PARTS.PSEUDO_CLASS : Nat := 4

abbrev TYPES_OF_PARTS.PSEUDO_ELEMENT : Nat := 5

/-- The state of a `MyBuilder` instance: the accumulated selector text
(`this.line`) and the six occurrence counters (`this.partsPresence`). -/
structure MyBuilder where
  line : String
  partsPresence : List Nat
deriving Repr, DecidableEq

namespace MyBuilder

/-- `isCorrectOrderForNewPart(newPartType)`: true when no counter at an
index strictly greater than `newPartType` is positive
(`!this.partsPresence.slice(newPartType + 1).filter((item) => item > 0).length`). -/
def isCorrectOrderForNewPart (b : MyBuilder) (newPartType : Nat) : Bool :=
  ((b.partsPresence.drop (newPartType + 1)).filter (fun item => item > 0)).length = 0

/-- The text the `switch` of `addNewPartInLine` appends for one fragment:
element text verbatim, `#id`, `.class`, `:pseudoClass`, `::pseudoElement`,
`[attr]`; the `default` branch appends nothing. -/
def renderPart (str : String) (typeOfPart : Nat) : String :=
  if typeOfPart = TYPES_OF_PARTS.ELEMENT then str
  else if typeOfPart = TYPES_OF_PARTS.ID then "#" ++ str
  else if typeOfPart = TYPES_OF_PARTS.CLASS then "." ++ str
  else if typeOfPart = TYPES_OF_PARTS.PSEUDO_CLASS then ":" ++ str
  else if typeOfPart = TYPES_OF_PARTS.PSEUDO_ELEMENT then "::" ++ str
  else if typeOfPart = TYPES_OF_PARTS.ATTR then "[" ++ str ++ "]"
  else ""

/-- `addNewPartInLine(str, typeOfPart)`: throws `OutOfOrderError` when the
order check fails, otherwise increments the counter of `typeOfPart` and
appends the rendered fragment to `this.line`. -/
def addNewPartInLine (b : MyBuilder) (str : String) (typeOfPart : Nat) :
    Option BuilderError × MyBuilder :=
  if ¬ b.isCorrectOrderForNewPart typeOfPart then
    (some .outOfOrder, b)
  else
    (none,
      { line := b.line ++ renderPart str typeOfPart
        partsPresence :=
          b.partsPresence.set typeOfPart (b.partsPresence.getD typeOfPart 0 + 1) })

/-- Method `element(str)`: duplicate check on the `ELEMENT` counter, then
`addNewPartInLine`; returns `this`. -/
def element (b : MyBuilder) (str : String) : Option BuilderError × MyBuilder :=
  if b.partsPresence.getD TYPES_OF_PARTS.ELEMENT 0 ≠ 0 then
    (some .duplicateFragment, b)
  else
    b.addNewPartInLine str TYPES_OF_PARTS.ELEMENT

/-- Method `class(str)`: no duplicate check, delegates to
`addNewPartInLine` with kind `CLASS`; returns `this`. -/
def «class» (b : MyBuilder) (str : String) : Option BuilderError × MyBuilder :=
  b.addNewPartInLine str TYPES_OF_PARTS.CLASS

/-- Method `id(str)`: duplicate check on the `ID` counter, then
`addNewPartInLine`; returns `this`. -/
def id (b : MyBuilder) (str : String) : Option BuilderError × MyBuilder :=
  if b.partsPresence.getD TYPES_OF_PARTS.ID 0 ≠ 0 then
    (some .duplicateFragment, b)
  else
    b.addNewPartInLine str TYPES_OF_PARTS.ID

/-- Method `attr(str)`: no duplicate check, kind `ATTR`. -/
def attr (b : MyBuilder) (str : String) : Option BuilderError × MyBuilder :=
  b.addNewPartInLine str TYPES_OF_PARTS.ATTR

/-- Method `pseudoClass(str)`: no duplicate check, kind `PSEUDO_CLASS`. -/
def pseudoClass (b : MyBuilder) (str : String) : Option BuilderError × MyBuilder :=
  b.addNewPartInLine str TYPES_OF_PARTS.PSEUDO_CLASS

/-- Method `pseudoElement(str)`: duplicate check on the `PSEUDO_ELEMENT`
counter, then `addNewPartInLine`. -/
def pseudoElement (b : MyBuilder) (str : String) : Option BuilderError × MyBuilder :=
  if b.partsPresence.getD TYPES_OF_PARTS.PSEUDO_ELEMENT 0 ≠ 0 then
    (some .duplicateFragment, b)
  else
    b.addNewPartInLine str TYPES_OF_PARTS.PSEUDO_ELEMENT

/-- Method `combineTail(combinator, lineStr)`: appends
`' ' + combinator + ' ' + lineStr` to `this.line` and returns `this`. -/
def combineTail (b : MyBuilder) (combinator : String) (lineStr : String) : MyBuilder :=
  { b with line := b.line ++ " " ++ combinator ++ " " ++ lineStr }

/-- Method `stringify()`: returns `this.line`; the second component is the
receiver after the call (unchanged, since the method only reads). -/
def stringify (b : MyBuilder) : String × MyBuilder :=
  (b.line, b)

/-- The constructor `new MyBuilder(initStr, typeOfPart)`: starts from an
empty line and six zero counters, then calls `addNewPartInLine`. -/
def make (initStr : String) (typeOfPart : Nat) : Option BuilderError × MyBuilder :=
  addNewPartInLine { line := "", partsPresence := List.replicate 6 0 } initStr typeOfPart

/-- Dispatch a fragment-append method call by its numeric kind: kind `0`
calls `element`, `1` calls `id`, `2` calls `class`, `3` calls `attr`,
`4` calls `pseudoClass`, `5` calls `pseudoElement`.  (Harness for
quantifying over fragment kinds; kinds ≥ 6 have no method.) -/
def applyKind (b : MyBuilder) (k : Nat) (str : String) : Option BuilderError × MyBuilder :=
  if k = 0 then b.element str
  else if k = 1 then b.id str
  else if k = 2 then b.«class» str
  else if k = 3 then b.attr str
  else if k = 4 then b.pseudoClass str
  else if k = 5 then b.pseudoElement str
  else (none, b)

/-- Run a chain of fragment-append method calls, stopping at the first
raised error (an exception aborts the chain; the state returned with the
error is the receiver's state at the throw). -/
def run (b : MyBuilder) : List (Nat × String) → Option BuilderError × MyBuilder
  | [] => (none, b)
  | (k, t) :: rest =>
    match b.applyKind k t with
    | (none, b') => run b' rest
    | (some e, b') => (some e, b')

end MyBuilder

namespace cssSelectorBuilder

/-- Facade `cssSelectorBuilder.element(value)`. -/
def element (value : String) : Option BuilderError × MyBuilder :=
  MyBuilder.make value TYPES_OF_PARTS.ELEMENT

/-- Facade `cssSelectorBuilder.id(value)`. -/
def id (value : String) : Option BuilderError × MyBuilder :=
  MyBuilder.make value TYPES_OF_PARTS.ID

/-- Facade `cssSelectorBuilder.class(value)`. -/
def «class» (value : String) : Option BuilderError × MyBuilder :=
  MyBuilder.make value TYPES_OF_PARTS.CLASS

/-- Facade `cssSelectorBuilder.attr(value)`. -/
def attr (value : String) : Option BuilderError × MyBuilder :=
  MyBuilder.make value TYPES_OF_PARTS.ATTR

/-- Facade `cssSelectorBuilder.pseudoClass(value)`. -/
def pseudoClass (value : String) : Option BuilderError × MyBuilder :=
  MyBuilder.make value TYPES_OF_PARTS.PSEUDO_CLASS

/-- Facade `cssSelectorBuilder.pseudoElement(value)`. -/
def pseudoElement (value : String) : Option BuilderError × MyBuilder :=
  MyBuilder.make value TYPES_OF_PARTS.PSEUDO_ELEMENT

/-- Facade `cssSelectorBuilder.combine(selector1, combinator, selector2)`:
`selector1.combineTail(combinator, selector2.stringify())`. -/
def combine (selector1 : MyBuilder) (combinator : String) (selector2 : MyBuilder) :
    MyBuilder :=
  selector1.combineTail combinator (selector2.stringify).1

end cssSelectorBuilder

/-- Number of occurrences of the character `c` in the string `s`. -/
def countOccur (c : Char) (s : String) : Nat :=
  s.data.count c

/-- The one-character rendering prefix of the repeatable fragment kinds:
`.` for `CLASS`, `[` for `ATTR`, `:` for `PSEUDO_CLASS`. -/
def prefixChar (k : Nat) : Char :=
  if k = TYPES_OF_PARTS.CLASS then '.'
  else if k = TYPES_OF_PARTS.ATTR then '['
  else if k = TYPES_OF_PARTS.PSEUDO_CLASS then ':'
  else ' '

/-- The concatenation, in order, of the rendered fragments of a chain of
fragment-append calls (kind/text pairs). -/
def renderAll (ts : List (Nat × String)) : String :=
  ts.foldr (fun p acc => MyBuilder.renderPart p.2 p.1 ++ acc) ""

/-- The state an append produces on success. -/
def MyBuilder.afterAppend (b : MyBuilder) (t : String) (k : Nat) : MyBuilder :=
  { line := b.line ++ MyBuilder.renderPart t k
    partsPresence := b.partsPresence.set k (b.partsPresence.getD k 0 + 1) }

/-- Modelled from the spec: the plain structured data values handled by
the external collaborators `serialize` (`JSON.stringify`) and
`deserialize` (`JSON.parse` plus prototype binding), which are not part of
this repository's source.  Plain data: null, booleans, numbers (modelled
as integers), strings, arrays and objects with string keys — no cycles,
no non-data members. -/
inductive JsonValue where
  | null
  | bool (b : Bool)
  | num (n : Int)
  | str (s : String)
  | arr (items : List JsonValue)
  | obj (fields : List (String × JsonValue))
deriving Repr

/-- The decimal digits of a natural number, most significant first. -/
def natChars (n : Nat) : List Char :=
  if h : n < 10 then [Char.ofNat (48 + n)]
  else natChars (n / 10) ++ [Char.ofNat (48 + n % 10)]
termination_by n
decreasing_by exact Nat.div_lt_self (by omega) (by omega)

/-- The decimal rendering of an integer. -/
def intChars (n : Int) : List Char :=
  if n < 0 then '-' :: natChars n.natAbs else natChars n.toNat

/-- The rendering of one string character inside a quoted JSON string:
the quote and the backslash — the metacharacters of the textual form —
are written behind a backslash, every other character verbatim. -/
def escChar (c : Char) : List Char :=
  if c = '"' ∨ c = '\\' then ['\\', c] else [c]

/-- The rendered body of a quoted JSON string. -/
def escChars : List Char → List Char
  | [] => []
  | c :: cs => escChar c ++ escChars cs

mutual

/-- Modelled from the spec: the character sequence `serialize` produces —
JSON text with keys rendered in the (stable) order of the object's field
list.  Strings are rendered between quotes with the quote and backslash
characters escaped, so an arbitrary plain-data string round-trips. -/
def serJ : JsonValue → List Char
  | .null => "null".data
  | .bool true => "true".data
  | .bool false => "false".data
  | .num n => intChars n
  | .str s => '"' :: escChars s.data ++ ['"']
  | .arr [] => "[]".data
  | .arr (v :: vs) => '[' :: (serJ v ++ serItemsTail vs) ++ [']']
  | .obj [] => "{}".data
  | .obj (f :: fs) => '{' :: (serField f ++ serFieldsTail fs) ++ ['}']

/-- One rendered object field: quoted key, colon, value. -/
def serField : String × JsonValue → List Char
  | (k, v) => '"' :: escChars k.data ++ '"' :: ':' :: serJ v

/-- The remaining array items, each preceded by a comma. -/
def serItemsTail : List JsonValue → List Char
  | [] => []
  | v :: vs => ',' :: (serJ v ++ serItemsTail vs)

/-- The remaining object fields, each preceded by a comma. -/
def serFieldsTail : List (String × JsonValue) → List Char
  | [] => []
  | f :: fs => ',' :: (serField f ++ serFieldsTail fs)

end

mutual

/-- Structural size of a value; lower bound for the parsing fuel. -/
def jsize : JsonValue → Nat
  | .null | .bool _ | .num _ | .str _ => 1
  | .arr vs => 1 + jsizeItems vs
  | .obj fs => 1 + jsizeFields fs

/-- Structural size of an item list. -/
def jsizeItems : List JsonValue → Nat
  | [] => 0
  | v :: vs => 1 + jsize v + jsizeItems vs

/-- Structural size of a field list. -/
def jsizeFields : List (String × JsonValue) → Nat
  | [] => 0
  | f :: fs => 1 + jsize f.2 + jsizeFields fs

end

/-- Consume a quoted string's body character by character up to the
unescaped closing quote, undoing the two-character escapes. -/
def parseStrChars : List Char → Option (List Char × List Char)
  | [] => none
  | c :: rest =>
    if c = '"' then some ([], rest)
    else if c = '\\' then
      match rest with
      | [] => none
      | d :: rest2 => (parseStrChars rest2).map fun p => (d :: p.1, p.2)
    else (parseStrChars rest).map fun p => (c :: p.1, p.2)

/-- Consume a quoted string's body: the unescaped characters before the
closing quote, then the quote itself. -/
def parseStringBody (cs : List Char) : Option (String × List Char) :=
  (parseStrChars cs).map fun p => (String.mk p.1, p.2)

/-- The numeric value of a run of decimal digit characters. -/
def digitsVal (ds : List Char) : Nat :=
  ds.foldl (fun acc c => acc * 10 + (c.toNat - 48)) 0

/-- Consume a nonempty run of decimal digits. -/
def parseNatNum (cs : List Char) : Option (Nat × List Char) :=
  let ds := cs.takeWhile (fun c => c.isDigit)
  if ds = [] then none
  else some (digitsVal ds, cs.dropWhile (fun c => c.isDigit))

/-- Consume an optionally negated decimal number. -/
def parseNumber (cs : List Char) : Option (Int × List Char) :=
  if cs.head? = some '-' then
    (parseNatNum cs.tail).map fun p => (-(p.1 : Int), p.2)
  else
    (parseNatNum cs).map fun p => ((p.1 : Int), p.2)

mutual

/-- Modelled from the spec: the parsing half of `deserialize`
(`JSON.parse`).  Fuel-indexed recursive descent over the character list;
returns the parsed value and the unconsumed remainder, or `none` on
malformed text (the collaborator's `ParseError`). -/
def parseVal : Nat → List Char → Option (JsonValue × List Char)
  | 0, _ => none
  | fuel + 1, cs =>
    if cs.take 4 = ['n', 'u', 'l', 'l'] then some (.null, cs.drop 4)
    else if cs.take 4 = ['t', 'r', 'u', 'e'] then some (.bool true, cs.drop 4)
    else if cs.take 5 = ['f', 'a', 'l', 's', 'e'] then some (.bool false, cs.drop 5)
    else if cs.head? = some '"' then
      (parseStringBody cs.tail).map fun p => (JsonValue.str p.1, p.2)
    else if cs.take 2 = ['[', ']'] then some (.arr [], cs.drop 2)
    else if cs.head? = some '[' then
      (parseItems fuel cs.tail).map fun p => (JsonValue.arr p.1, p.2)
    else if cs.take 2 = ['{', '}'] then some (.obj [], cs.drop 2)
    else if cs.head? = some '{' then
      (parseFields fuel cs.tail).map fun p => (JsonValue.obj p.1, p.2)
    else (parseNumber cs).map fun p => (JsonValue.num p.1, p.2)

/-- One or more comma-separated items terminated by `]`. -/
def parseItems : Nat → List Char → Option (List JsonValue × List Char)
  | 0, _ => none
  | fuel + 1, cs =>
    (parseVal fuel cs).bind fun p =>
      if p.2.head? = some ',' then
        (parseItems fuel p.2.tail).map fun q => (p.1 :: q.1, q.2)
      else if p.2.head? = some ']' then some ([p.1], p.2.tail)
      else none

/-- One or more comma-separated `"key":value` fields terminated by `}`. -/
def parseFields : Nat → List Char → Option (List (String × JsonValue) × List Char)
  | 0, _ => none
  | fuel + 1, cs =>
    if cs.head? = some '"' then
      (parseStringBody cs.tail).bind fun kp =>
        if kp.2.head? = some ':' then
          (parseVal fuel kp.2.tail).bind fun vp =>
            if vp.2.head? = some ',' then
              (parseFields fuel vp.2.tail).map fun q => ((kp.1, vp.1) :: q.1, q.2)
            else if vp.2.head? = some '}' then some ([(kp.1, vp.1)], vp.2.tail)
            else none
        else none
    else none

end

/-- Modelled from the spec: `serialize(value) -> text`. -/
def serialize (v : JsonValue) : String :=
  String.mk (serJ v)

/-- Modelled from the spec: the parsing half of `deserialize`: the whole
text must be consumed, otherwise the collaborator's `ParseError`
(`none`). -/
def parseJson (s : String) : Option JsonValue :=
  match parseVal (s.data.length + 1) s.data with
  | some (v, []) => some v
  | _ => none

/-- A parsed value bound to a capability/prototype `P`: the result of
`Object.setPrototypeOf(value, proto)` — the data fields together with the
behaviour set they now expose. -/
structure JsObject (P : Type) where
  fields : JsonValue
  proto : P

/-- `getJSON(obj)`: `return JSON.stringify(obj)`. -/
def getJSON (obj : JsonValue) : String :=
  serialize obj

/-- `fromJSON(proto, json)`: parse the text, then attach the prototype
(`Object.setPrototypeOf(objFromJson, proto)`); a `ParseError` of the
collaborator propagates (`none`). -/
def fromJSON (P : Type) (proto : P) (json : String) : Option (JsObject P) :=
  (parseJson json).map fun v => { fields := v, proto := proto }

lemma renderAll_nil : renderAll [] = "" := rfl

lemma renderAll_cons (k : Nat) (t : String) (ts : List (Nat × String)) :
    renderAll ((k, t) :: ts) = MyBuilder.renderPart t k ++ renderAll ts := rfl

lemma countOccur_append (c : Char) (a b : String) :
    countOccur c (a ++ b) = countOccur c a + countOccur c b := by
  simp [countOccur, String.data_append, List.count_append]

lemma getD_set_self (l : List Nat) (i a : Nat) (h : i < l.length) :
    (l.set i a).getD i 0 = a := by
  rw [List.getD_eq_getElem _ _ (by simpa using h)]
  exact List.getElem_set_self _

lemma getD_set_ne (l : List Nat) (i j a : Nat) (hne : i ≠ j) :
    (l.set i a).getD j 0 = l.getD j 0 := by
  by_cases hj : j < l.length
  · rw [List.getD_eq_getElem _ _ (by simpa using hj), List.getD_eq_getElem _ _ hj]
    exact List.getElem_set_ne hne _
  · rw [List.getD_eq_default _ _ (by simpa using Nat.le_of_not_lt hj),
      List.getD_eq_default _ _ (Nat.le_of_not_lt hj)]

/-- The source's order check holds exactly when every occurrence count at
an index strictly greater than `k` is zero. -/
lemma isCorrectOrder_iff (b : MyBuilder) (k : Nat) :
    b.isCorrectOrderForNewPart k = true ↔
      ∀ j, k < j → j < b.partsPresence.length → b.partsPresence.getD j 0 = 0 := by
  unfold MyBuilder.isCorrectOrderForNewPart
  rw [decide_eq_true_iff, List.length_eq_zero, List.filter_eq_nil_iff]
  constructor
  · intro h j hkj hjl
    rw [List.getD_eq_getElem _ _ hjl]
    have hidx : j - (k + 1) < (b.partsPresence.drop (k + 1)).length := by
      simp [List.length_drop]; omega
    have heq : (b.partsPresence.drop (k + 1))[j - (k + 1)] = b.partsPresence[j] := by
      rw [List.getElem_drop]
      congr 1
      omega
    have hmem : b.partsPresence[j] ∈ b.partsPresence.drop (k + 1) := by
      rw [← heq]
      exact List.getElem_mem _
    have := h _ hmem
    simp at this
    exact this
  · intro h a ha
    obtain ⟨i, hi, rfl⟩ := List.mem_iff_getElem.mp ha
    have hlen : k + 1 + i < b.partsPresence.length := by
      simp [List.length_drop] at hi; omega
    have hz := h (k + 1 + i) (by omega) hlen
    rw [List.getD_eq_getElem _ _ hlen] at hz
    simp [List.getElem_drop, hz]

/-- A fragment-append call on a single-occurrence kind whose counter is
already nonzero raises `DuplicateFragmentError` and leaves the state
untouched. -/
lemma applyKind_eq_dup (b : MyBuilder) (k : Nat) (t : String)
    (hk : k = 0 ∨ k = 1 ∨ k = 5) (hp : b.partsPresence.getD k 0 ≠ 0) :
    b.applyKind k t = (some .duplicateFragment, b) := by
  rcases hk with rfl | rfl | rfl <;>
    simp_all [MyBuilder.applyKind, MyBuilder.element, MyBuilder.id, MyBuilder.pseudoElement,
      List.getD]

/-- A fragment-append call that passes any duplicate check but fails the
order check raises `OutOfOrderError` and leaves the state untouched. -/
lemma applyKind_eq_ord (b : MyBuilder) (k : Nat) (t : String) (hk : k < 6)
    (hdup : k = 0 ∨ k = 1 ∨ k = 5 → b.partsPresence.getD k 0 = 0)
    (hord : b.isCorrectOrderForNewPart k = false) :
    b.applyKind k t = (some .outOfOrder, b) := by
  interval_cases k <;>
    simp_all [MyBuilder.applyKind, MyBuilder.element, MyBuilder.id, MyBuilder.«class»,
      MyBuilder.attr, MyBuilder.pseudoClass, MyBuilder.pseudoElement,
      MyBuilder.addNewPartInLine]

/-- A fragment-append call that passes both checks succeeds and produces
`afterAppend`. -/
lemma applyKind_eq_ok (b : MyBuilder) (k : Nat) (t : String) (hk : k < 6)
    (hdup : k = 0 ∨ k = 1 ∨ k = 5 → b.partsPresence.getD k 0 = 0)
    (hord : b.isCorrectOrderForNewPart k = true) :
    b.applyKind k t = (none, b.afterAppend t k) := by
  interval_cases k <;>
    simp_all [MyBuilder.applyKind, MyBuilder.element, MyBuilder.id, MyBuilder.«class»,
      MyBuilder.attr, MyBuilder.pseudoClass, MyBuilder.pseudoElement,
      MyBuilder.addNewPartInLine, MyBuilder.afterAppend]

/-- Inversion: a successful fragment-append call passed its duplicate
check, passed the order check, and produced `afterAppend`. -/
lemma applyKind_ok_inv (b b' : MyBuilder) (k : Nat) (t : String) (hk : k < 6)
    (h : b.applyKind k t = (none, b')) :
    (k = 0 ∨ k = 1 ∨ k = 5 → b.partsPresence.getD k 0 = 0) ∧
      b.isCorrectOrderForNewPart k = true ∧ b' = b.afterAppend t k := by
  interval_cases k <;>
    simp_all [MyBuilder.applyKind, MyBuilder.element, MyBuilder.id, MyBuilder.«class»,
      MyBuilder.attr, MyBuilder.pseudoClass, MyBuilder.pseudoElement,
      MyBuilder.addNewPartInLine, MyBuilder.afterAppend] <;>
    split_ifs at h <;> simp_all

/-- The error outcome of any fragment-append method call, as a function of
the occurrence counters alone: the duplicate check of the
single-occurrence kinds fires first, then the order check. -/
lemma fst_applyKind (b : MyBuilder) (k : Nat) (t : String) :
    (b.applyKind k t).1 =
      if k < 6 then
        if (k = 0 ∨ k = 1 ∨ k = 5) ∧ b.partsPresence.getD k 0 ≠ 0 then
          some .duplicateFragment
        else if b.isCorrectOrderForNewPart k then none
        else some .outOfOrder
      else none := by
  by_cases hk : k < 6
  · interval_cases k <;>
      simp_all [MyBuilder.applyKind, MyBuilder.element, MyBuilder.id, MyBuilder.«class»,
        MyBuilder.attr, MyBuilder.pseudoClass, MyBuilder.pseudoElement,
        MyBuilder.addNewPartInLine] <;>
      split_ifs <;> simp_all
  · have h0 : ¬ k = 0 := by omega
    have h1 : ¬ k = 1 := by omega
    have h2 : ¬ k = 2 := by omega
    have h3 : ¬ k = 3 := by omega
    have h4 : ¬ k = 4 := by omega
    have h5 : ¬ k = 5 := by omega
    simp [MyBuilder.applyKind, h0, h1, h2, h3, h4, h5, hk]

/-- A successful chain of fragment-append calls appends exactly the
rendered fragments, in order, to the line. -/
lemma run_ok_line (ts : List (Nat × String)) :
    ∀ b b' : MyBuilder, (∀ p ∈ ts, p.1 < 6) → MyBuilder.run b ts = (none, b') →
      b'.line = b.line ++ renderAll ts := by
  induction ts with
  | nil =>
    intro b b' _ h
    simp [MyBuilder.run] at h
    simp [← h, renderAll_nil, String.append_empty]
  | cons p rest ih =>
    intro b b' hlt h
    obtain ⟨k, t⟩ := p
    rcases hcall : b.applyKind k t with ⟨e, b1⟩
    rw [MyBuilder.run, hcall] at h
    cases e with
    | some e => simp at h
    | none =>
      simp at h
      have hk : k < 6 := hlt (k, t) (by simp)
      obtain ⟨-, -, hb1⟩ := applyKind_ok_inv b b1 k t hk hcall
      have hline := ih b1 b' (fun q hq => hlt q (by simp [hq])) h
      rw [hline, hb1]
      simp [MyBuilder.afterAppend, renderAll_cons, String.append_assoc]

/-- Appending a repeatable-kind fragment preserves the order invariant for
that kind and the counter length, and never fails, provided the order
invariant holds. -/
lemma applyKind_repeat_step (b : MyBuilder) (k : Nat) (t : String)
    (hk : k = 2 ∨ k = 3 ∨ k = 4) (hord : b.isCorrectOrderForNewPart k = true) :
    b.applyKind k t = (none, b.afterAppend t k) ∧
      (b.afterAppend t k).isCorrectOrderForNewPart k = true ∧
      (b.afterAppend t k).partsPresence.length = b.partsPresence.length := by
  have hk6 : k < 6 := by omega
  have hdup : k = 0 ∨ k = 1 ∨ k = 5 → b.partsPresence.getD k 0 = 0 := by omega
  refine ⟨applyKind_eq_ok b k t hk6 hdup hord, ?_, by simp [MyBuilder.afterAppend]⟩
  rw [isCorrectOrder_iff] at hord ⊢
  intro j hkj hjl
  simp [MyBuilder.afterAppend] at hjl
  rw [MyBuilder.afterAppend, getD_set_ne _ _ _ _ (by omega)]
  exact hord j hkj hjl

/-- Any number of consecutive appends of one repeatable kind succeeds. -/
lemma run_repeat_ok (k : Nat) (hk : k = 2 ∨ k = 3 ∨ k = 4) (ts : List String) :
    ∀ b : MyBuilder, b.isCorrectOrderForNewPart k = true →
      (MyBuilder.run b (ts.map fun t => (k, t))).1 = none := by
  induction ts with
  | nil => intro b _; simp [MyBuilder.run]
  | cons t rest ih =>
    intro b hord
    obtain ⟨hcall, hord', -⟩ := applyKind_repeat_step b k t hk hord
    simp only [List.map_cons, MyBuilder.run, hcall]
    exact ih (b.afterAppend t k) hord'

/-- Rendering a repeatable-kind fragment contributes exactly one
occurrence of the kind's prefix character when the fragment text itself is
free of that character. -/
lemma countOccur_renderPart (k : Nat) (t : String) (hk : k = 2 ∨ k = 3 ∨ k = 4)
    (hclean : prefixChar k ∉ t.data) :
    countOccur (prefixChar k) (MyBuilder.renderPart t k) = 1 := by
  have hcnt : t.data.count (prefixChar k) = 0 := List.count_eq_zero.mpr hclean
  rcases hk with rfl | rfl | rfl <;>
    simp_all [countOccur, MyBuilder.renderPart, prefixChar, String.data_append,
      List.count_append, List.count_cons]

/-- Counting the prefix character over a rendered chain of one repeatable
kind, with clean fragment texts, yields the chain's length. -/
lemma countOccur_renderAll (k : Nat) (hk : k = 2 ∨ k = 3 ∨ k = 4) (ts : List String)
    (hclean : ∀ t ∈ ts, prefixChar k ∉ t.data) :
    countOccur (prefixChar k) (renderAll (ts.map fun t => (k, t))) = ts.length := by
  induction ts with
  | nil => simp [renderAll_nil, countOccur]
  | cons t rest ih =>
    simp only [List.map_cons, renderAll_cons, countOccur_append, List.length_cons]
    rw [countOccur_renderPart k t hk (hclean t (by simp)),
      ih (fun u hu => hclean u (by simp [hu]))]
    omega

/-- C2: for each of the kinds ELEMENT, ID, PSEUDO_ELEMENT, a builder
instance that already holds a fragment of that kind (nonzero occurrence
count) raises `DuplicateFragmentError` on a second append of the same
kind. -/
theorem claim_C2_duplicate_single_kinds :
    ∀ (b : MyBuilder) (t : String),
      (b.partsPresence.getD TYPES_OF_PARTS.ELEMENT 0 ≠ 0 →
        (b.element t).1 = some BuilderError.duplicateFragment) ∧
      (b.partsPresence.getD TYPES_OF_PARTS.ID 0 ≠ 0 →
        (b.id t).1 = some BuilderError.duplicateFragment) ∧
      (b.partsPresence.getD TYPES_OF_PARTS.PSEUDO_ELEMENT 0 ≠ 0 →
        (b.pseudoElement t).1 = some BuilderError.duplicateFragment) := by
  intro b t
  refine ⟨fun h => ?_, fun h => ?_, fun h => ?_⟩ <;>
    simp_all [MyBuilder.element, MyBuilder.id, MyBuilder.pseudoElement, List.getD]

/-- Witness for C2 at concrete seeded builders. -/
theorem claim_C2_witness :
    ((cssSelectorBuilder.element "div").2.element "span").1
        = some BuilderError.duplicateFragment ∧
      ((cssSelectorBuilder.id "a").2.id "b").1 = some BuilderError.duplicateFragment ∧
      ((cssSelectorBuilder.pseudoElement "after").2.pseudoElement "before").1
        = some BuilderError.duplicateFragment :=
  ⟨(claim_C2_duplicate_single_kinds (cssSelectorBuilder.element "div").2 "span").1 (by decide),
    (claim_C2_duplicate_single_kinds (cssSelectorBuilder.id "a").2 "b").2.1 (by decide),
    (claim_C2_duplicate_single_kinds
      (cssSelectorBuilder.pseudoElement "after").2 "before").2.2 (by decide)⟩

/-- C5: `combine(L, c, R)` returns the mutated left builder: its line is
L's line followed by a space, the combinator, a space and R's stringified
text, with L's occurrence counts kept; a space combinator therefore yields
three consecutive spaces at the joint, and the documented scenario renders
as `div#main + table#data`. -/
theorem claim_C5_combine_rendering :
    ∀ (L R : MyBuilder) (c : String),
      cssSelectorBuilder.combine L c R =
        { line := L.line ++ " " ++ c ++ " " ++ (R.stringify).1
          partsPresence := L.partsPresence } ∧
      (cssSelectorBuilder.combine L " " R).line = L.line ++ "   " ++ (R.stringify).1 ∧
      ((cssSelectorBuilder.combine ((cssSelectorBuilder.element "div").2.id "main").2 "+"
          ((cssSelectorBuilder.element "table").2.id "data").2).stringify).1
        = "div#main + table#data" := by
  intro L R c
  refine ⟨rfl, ?_, by decide⟩
  show L.line ++ " " ++ " " ++ " " ++ (R.stringify).1 = L.line ++ "   " ++ (R.stringify).1
  apply String.ext
  simp [String.data_append]

/-- C6: `stringify` returns the current line without mutating the builder:
a second call returns the same text, and any fragment-append call after a
`stringify` behaves exactly as without it. -/
theorem claim_C6_stringify_pure :
    ∀ b : MyBuilder,
      (b.stringify).2 = b ∧
      (((b.stringify).2.stringify)).1 = (b.stringify).1 ∧
      ∀ (k : Nat) (t : String), (b.stringify).2.applyKind k t = b.applyKind k t :=
  fun _ => ⟨rfl, rfl, fun _ _ => rfl⟩

/-- C9: a fragment-append call that raises an error leaves the builder
exactly as it was: both checks run before any mutation. -/
theorem claim_C9_error_atomicity :
    ∀ (b : MyBuilder) (k : Nat) (t : String) (e : BuilderError),
      (b.applyKind k t).1 = some e → (b.applyKind k t).2 = b := by
  intro b k t e h
  by_cases hk : k < 6
  · by_cases hd : (k = 0 ∨ k = 1 ∨ k = 5) ∧ b.partsPresence.getD k 0 ≠ 0
    · rw [applyKind_eq_dup b k t hd.1 hd.2]
    · have hdup : k = 0 ∨ k = 1 ∨ k = 5 → b.partsPresence.getD k 0 = 0 := by
        intro hs
        by_contra hne
        exact hd ⟨hs, hne⟩
      cases ho : b.isCorrectOrderForNewPart k with
      | true =>
        rw [applyKind_eq_ok b k t hk hdup ho] at h
        simp at h
      | false =>
        rw [applyKind_eq_ord b k t hk hdup ho]
  · have h0 : ¬ k = 0 := by omega
    have h1 : ¬ k = 1 := by omega
    have h2 : ¬ k = 2 := by omega
    have h3 : ¬ k = 3 := by omega
    have h4 : ¬ k = 4 := by omega
    have h5 : ¬ k = 5 := by omega
    simp [MyBuilder.applyKind, h0, h1, h2, h3, h4, h5]

/-- Witness for C9: an out-of-order append on a class-seeded builder
errors and leaves the builder unchanged. -/
theorem claim_C9_witness :
    ((cssSelectorBuilder.«class» "a").2.applyKind 1 "b").2 = (cssSelectorBuilder.«class» "a").2 :=
  claim_C9_error_atomicity (cssSelectorBuilder.«class» "a").2 1 "b"
    BuilderError.outOfOrder (by decide)

/-- C10: when a single-occurrence kind is already present and some
strictly later kind also has a nonzero count, the duplicate check fires
first: the call raises `DuplicateFragmentError`, not `OutOfOrderError`. -/
theorem claim_C10_duplicate_precedence :
    ∀ (b : MyBuilder) (k : Nat) (t : String), (k = 0 ∨ k = 1 ∨ k = 5) →
      b.partsPresence.getD k 0 ≠ 0 →
      (∃ j, k < j ∧ j < b.partsPresence.length ∧ b.partsPresence.getD j 0 ≠ 0) →
      (b.applyKind k t).1 = some BuilderError.duplicateFragment ∧
        (b.applyKind k t).1 ≠ some BuilderError.outOfOrder := by
  intro b k t hk hp hlater
  rw [applyKind_eq_dup b k t hk hp]
  simp

/-- Witness for C10: a builder holding an element and a pseudo-element;
appending a second element raises the duplicate error. -/
theorem claim_C10_witness :
    (((cssSelectorBuilder.element "a").2.pseudoElement "b").2.applyKind 0 "c").1
        = some BuilderError.duplicateFragment ∧
      (((cssSelectorBuilder.element "a").2.pseudoElement "b").2.applyKind 0 "c").1
        ≠ some BuilderError.outOfOrder :=
  claim_C10_duplicate_precedence ((cssSelectorBuilder.element "a").2.pseudoElement "b").2 0 "c"
    (by omega) (by decide) ⟨5, by omega, by decide, by decide⟩

/-- C1 (amended): for kinds A strictly later than B in the fixed order,
(i) after a successful append of kind A on an instance whose counter for B
is zero when B is a single-occurrence kind, appending B raises
`OutOfOrderError`; (ii) after a successful append of kind B, appending A
succeeds; (iii) the order check holds exactly when no occurrence count of
a kind strictly later than the new kind is nonzero. -/
theorem claim_C1_order_enforcement :
    (∀ A B : Nat, B < A → A < 6 →
      (∀ (b b' : MyBuilder) (tA tB : String),
        b.partsPresence.length = 6 →
        b.applyKind A tA = (none, b') →
        (B = 0 ∨ B = 1 ∨ B = 5 → b.partsPresence.getD B 0 = 0) →
        (b'.applyKind B tB).1 = some BuilderError.outOfOrder) ∧
      (∀ (b b' : MyBuilder) (tB tA : String),
        b.applyKind B tB = (none, b') →
        (b'.applyKind A tA).1 = none)) ∧
    (∀ (b : MyBuilder) (k : Nat),
      b.isCorrectOrderForNewPart k = true ↔
        ∀ j, k < j → j < b.partsPresence.length → b.partsPresence.getD j 0 = 0) := by
  refine ⟨fun A B hBA hA6 => ⟨?_, ?_⟩, fun b k => isCorrectOrder_iff b k⟩
  · intro b b' tA tB h6 hsucc hdupB
    obtain ⟨hdupA, hordA, rfl⟩ := applyKind_ok_inv b b' A tA hA6 hsucc
    have hBne : A ≠ B := by omega
    have hgetB : (b.afterAppend tA A).partsPresence.getD B 0 = b.partsPresence.getD B 0 := by
      rw [MyBuilder.afterAppend]
      exact getD_set_ne _ _ _ _ hBne
    have hordB : (b.afterAppend tA A).isCorrectOrderForNewPart B = false := by
      rw [← Bool.not_eq_true, isCorrectOrder_iff]
      intro hall
      have hlen : A < (b.afterAppend tA A).partsPresence.length := by
        simp [MyBuilder.afterAppend, h6]
        omega
      have hz := hall A hBA hlen
      rw [MyBuilder.afterAppend, getD_set_self _ _ _ (by omega)] at hz
      omega
    rw [fst_applyKind]
    have hB6 : B < 6 := by omega
    have hnotdup : ¬ ((B = 0 ∨ B = 1 ∨ B = 5) ∧
        (b.afterAppend tA A).partsPresence.getD B 0 ≠ 0) := by
      rintro ⟨hs, hne⟩
      rw [hgetB] at hne
      exact hne (hdupB hs)
    simp [hB6, hnotdup, hordB]
    intro hs
    have h0 : (b.afterAppend tA A).partsPresence.getD B 0 = 0 := hgetB.trans (hdupB hs)
    simpa [List.getD] using h0
  · intro b b' tB tA hsucc
    obtain ⟨hdupB, hordB, rfl⟩ := applyKind_ok_inv b b' B tB (by omega) hsucc
    rw [isCorrectOrder_iff] at hordB
    have hAne : B ≠ A := by omega
    have hgetA : (b.afterAppend tB B).partsPresence.getD A 0 = 0 := by
      rw [MyBuilder.afterAppend, getD_set_ne _ _ _ _ hAne]
      by_cases hlen : A < b.partsPresence.length
      · exact hordB A hBA hlen
      · exact List.getD_eq_default _ _ (by omega)
    have hordA : (b.afterAppend tB B).isCorrectOrderForNewPart A = true := by
      rw [isCorrectOrder_iff]
      intro j hAj hjl
      rw [MyBuilder.afterAppend, getD_set_ne _ _ _ _ (by omega)]
      exact hordB j (by omega) (by simpa [MyBuilder.afterAppend] using hjl)
    rw [fst_applyKind]
    simp [hA6, hgetA, hordA]
    intro hs
    simpa [List.getD] using hgetA

/-- Counterexample to C1 as stated: on a builder instance already holding
an element, appending ID (later) and then ELEMENT (earlier) raises
`DuplicateFragmentError`, not `OutOfOrderError`. -/
theorem claim_C1_counterexample :
    ((cssSelectorBuilder.element "div").2.id "x").1 = none ∧
      (((cssSelectorBuilder.element "div").2.id "x").2.element "y").1
        = some BuilderError.duplicateFragment ∧
      (((cssSelectorBuilder.element "div").2.id "x").2.element "y").1
        ≠ some BuilderError.outOfOrder := by
  refine ⟨by decide, by decide, by decide⟩

/-- Witness for C1 on concrete inputs: class after id is rejected out of
order, id before class is accepted, and the order-check characterization
at a concrete builder and kind. -/
theorem claim_C1_witness :
    (((cssSelectorBuilder.element "div").2.applyKind 2 "c").2.applyKind 1 "m").1
        = some BuilderError.outOfOrder ∧
      (((cssSelectorBuilder.element "div").2.applyKind 1 "m").2.applyKind 2 "c").1 = none ∧
      ((cssSelectorBuilder.element "div").2.isCorrectOrderForNewPart 3 = true ↔
        ∀ j, 3 < j → j < (cssSelectorBuilder.element "div").2.partsPresence.length →
          (cssSelectorBuilder.element "div").2.partsPresence.getD j 0 = 0) :=
  ⟨(claim_C1_order_enforcement.1 2 1 (by omega) (by omega)).1
      (cssSelectorBuilder.element "div").2 _ "c" "m" (by decide) (by decide) (by decide),
    (claim_C1_order_enforcement.1 2 1 (by omega) (by omega)).2
      (cssSelectorBuilder.element "div").2 _ "m" "c" (by decide),
    claim_C1_order_enforcement.2 (cssSelectorBuilder.element "div").2 3⟩

/-- The order check always passes on the all-zero counters of a fresh
constructor call. -/
lemma isCorrectOrder_empty (k : Nat) :
    (MyBuilder.mk "" (List.replicate 6 0)).isCorrectOrderForNewPart k = true := by
  rw [isCorrectOrder_iff]
  intro j _ hj
  simp only [List.length_replicate] at hj
  rw [List.getD_eq_getElem _ _ (by simpa using hj)]
  interval_cases j <;> rfl

/-- The constructor succeeds for every kind and seeds `afterAppend` of the
empty state. -/
lemma make_eq_ok (t : String) (k : Nat) :
    MyBuilder.make t k =
      (none, (MyBuilder.mk "" (List.replicate 6 0)).afterAppend t k) := by
  rw [MyBuilder.make, MyBuilder.addNewPartInLine]
  rw [if_neg (not_not_intro (isCorrectOrder_empty k))]
  rfl

/-- C3 (amended): the repeatable kinds CLASS, ATTR, PSEUDO_CLASS never
raise `DuplicateFragmentError`, and a builder seeded with such a kind and
fed N fragments of it in total renders a text with exactly N occurrences
of the kind's prefix character, provided the fragment texts themselves do
not contain that character. -/
theorem claim_C3_repeatable_kinds :
    (∀ (b : MyBuilder) (k : Nat) (t : String), k = 2 ∨ k = 3 ∨ k = 4 →
      (b.applyKind k t).1 ≠ some BuilderError.duplicateFragment) ∧
    (∀ (k : Nat) (t0 : String) (ts : List String), (k = 2 ∨ k = 3 ∨ k = 4) →
      (∀ t ∈ t0 :: ts, prefixChar k ∉ t.data) →
      (MyBuilder.make t0 k).1 = none ∧
      (MyBuilder.run (MyBuilder.make t0 k).2 (ts.map fun t => (k, t))).1 = none ∧
      countOccur (prefixChar k)
          (((MyBuilder.run (MyBuilder.make t0 k).2 (ts.map fun t => (k, t))).2.stringify).1)
        = ts.length + 1) := by
  constructor
  · intro b k t hk
    rw [fst_applyKind]
    have hk6 : k < 6 := by omega
    have hns : ¬ ((k = 0 ∨ k = 1 ∨ k = 5) ∧ b.partsPresence.getD k 0 ≠ 0) := by
      rintro ⟨hs, -⟩
      omega
    simp only [hk6, if_true, if_pos, hns, if_neg, if_false]
    split <;> simp
  · intro k t0 ts hk hclean
    have hk6 : k < 6 := by omega
    have hmk := make_eq_ok t0 k
    set b0 := (MyBuilder.mk "" (List.replicate 6 0)).afterAppend t0 k with hb0
    have hord0 : b0.isCorrectOrderForNewPart k = true :=
      (applyKind_repeat_step _ k t0 hk (isCorrectOrder_empty k)).2.1
    have hrun1 : (MyBuilder.run b0 (ts.map fun t => (k, t))).1 = none :=
      run_repeat_ok k hk ts b0 hord0
    rcases hres : MyBuilder.run b0 (ts.map fun t => (k, t)) with ⟨e, bf⟩
    have he : e = none := by rw [hres] at hrun1; exact hrun1
    subst he
    have hline : bf.line = b0.line ++ renderAll (ts.map fun t => (k, t)) :=
      run_ok_line _ b0 bf (by simp; omega) hres
    refine ⟨by rw [hmk], by rw [hmk, hres], ?_⟩
    rw [hmk, hres, MyBuilder.stringify]
    have hb0line : b0.line = "" ++ MyBuilder.renderPart t0 k := rfl
    rw [hline, hb0line, String.empty_append, countOccur_append,
      countOccur_renderPart k t0 hk (hclean t0 (by simp)),
      countOccur_renderAll k hk ts (fun u hu => hclean u (by simp [hu]))]
    omega

/-- Counterexample to C3 as stated: a single class fragment whose text is
itself a dot renders two occurrences of the `.` prefix, not one. -/
theorem claim_C3_counterexample :
    (cssSelectorBuilder.«class» ".").1 = none ∧
      countOccur '.' (((cssSelectorBuilder.«class» ".").2.stringify).1) = 2 ∧
      countOccur '.' (((cssSelectorBuilder.«class» ".").2.stringify).1) ≠ 1 := by
  refine ⟨by decide, by decide, by decide⟩

/-- Witness for C3 at a concrete chain of two class fragments. -/
theorem claim_C3_witness :
    (((cssSelectorBuilder.attr "x").2.applyKind 2 "dup").1
        ≠ some BuilderError.duplicateFragment) ∧
      (MyBuilder.make "a" 2).1 = none ∧
      (MyBuilder.run (MyBuilder.make "a" 2).2 (["b"].map fun t => (2, t))).1 = none ∧
      countOccur (prefixChar 2)
          (((MyBuilder.run (MyBuilder.make "a" 2).2 (["b"].map fun t => (2, t))).2.stringify).1)
        = ["b"].length + 1 :=
  ⟨claim_C3_repeatable_kinds.1 (cssSelectorBuilder.attr "x").2 2 "dup" (by omega),
    claim_C3_repeatable_kinds.2 2 "a" ["b"] (by omega) (by decide)⟩

/-- C4: each facade entry point equals appending one fragment of the
matching kind to an empty builder; the rendered fragments use the fixed
prefixes; for every legal chain of appends the stringified text is the
fragments' renderings concatenated in append order; and the documented
scenario renders `#main.container.editable`. -/
theorem claim_C4_facade_and_stringify :
    (∀ v : String,
      cssSelectorBuilder.element v
          = MyBuilder.element { line := "", partsPresence := List.replicate 6 0 } v ∧
        cssSelectorBuilder.id v
          = MyBuilder.id { line := "", partsPresence := List.replicate 6 0 } v ∧
        cssSelectorBuilder.«class» v
          = MyBuilder.«class» { line := "", partsPresence := List.replicate 6 0 } v ∧
        cssSelectorBuilder.attr v
          = MyBuilder.attr { line := "", partsPresence := List.replicate 6 0 } v ∧
        cssSelectorBuilder.pseudoClass v
          = MyBuilder.pseudoClass { line := "", partsPresence := List.replicate 6 0 } v ∧
        cssSelectorBuilder.pseudoElement v
          = MyBuilder.pseudoElement { line := "", partsPresence := List.replicate 6 0 } v) ∧
    (∀ v : String,
      MyBuilder.renderPart v TYPES_OF_PARTS.ELEMENT = v ∧
        MyBuilder.renderPart v TYPES_OF_PARTS.ID = "#" ++ v ∧
        MyBuilder.renderPart v TYPES_OF_PARTS.CLASS = "." ++ v ∧
        MyBuilder.renderPart v TYPES_OF_PARTS.ATTR = "[" ++ v ++ "]" ∧
        MyBuilder.renderPart v TYPES_OF_PARTS.PSEUDO_CLASS = ":" ++ v ∧
        MyBuilder.renderPart v TYPES_OF_PARTS.PSEUDO_ELEMENT = "::" ++ v) ∧
    (∀ (ts : List (Nat × String)) (b' : MyBuilder), (∀ p ∈ ts, p.1 < 6) →
      MyBuilder.run { line := "", partsPresence := List.replicate 6 0 } ts = (none, b') →
      (b'.stringify).1 = renderAll ts) ∧
    (((cssSelectorBuilder.id "main").2.«class» "container").2.«class» "editable"
      = (none, { line := "#main.container.editable", partsPresence := [0, 1, 2, 0, 0, 0] })) := by
  refine ⟨fun v => ⟨rfl, rfl, rfl, rfl, rfl, rfl⟩, fun v => ⟨rfl, rfl, rfl, rfl, rfl, rfl⟩,
    ?_, by decide⟩
  intro ts b' hlt hrun
  have hline := run_ok_line ts _ b' hlt hrun
  rw [MyBuilder.stringify, hline]
  exact String.empty_append _

/-- Witness for C4: the general chain-rendering conjunct applied at the
concrete chain id, class, class. -/
theorem claim_C4_witness :
    ((MyBuilder.run { line := "", partsPresence := List.replicate 6 0 }
        [(1, "main"), (2, "container"), (2, "editable")]).2.stringify).1
      = renderAll [(1, "main"), (2, "container"), (2, "editable")] :=
  claim_C4_facade_and_stringify.2.2.1 [(1, "main"), (2, "container"), (2, "editable")]
    _ (by decide) (by decide)

/-- C7: `combine` neither consults nor modifies occurrence counts: the
combined builder keeps the left operand's counts, subsequent append calls
are validated exactly as on the left operand alone, and the right operand
is read only through `stringify` (two right operands with the same
stringified text combine identically). -/
theorem claim_C7_combine_frame :
    ∀ (L R : MyBuilder) (c : String),
      (cssSelectorBuilder.combine L c R).partsPresence = L.partsPresence ∧
      (∀ (k : Nat) (t : String),
        ((cssSelectorBuilder.combine L c R).applyKind k t).1 = (L.applyKind k t).1) ∧
      (∀ R' : MyBuilder, (R'.stringify).1 = (R.stringify).1 →
        cssSelectorBuilder.combine L c R' = cssSelectorBuilder.combine L c R) := by
  intro L R c
  refine ⟨rfl, fun k t => ?_, fun R' h => ?_⟩
  · rw [fst_applyKind, fst_applyKind]
    rfl
  · simp only [cssSelectorBuilder.combine, MyBuilder.combineTail, MyBuilder.stringify] at h ⊢
    rw [h]

/-- Witness for C7: two right operands with equal stringified text but
different counters combine to the same result. -/
theorem claim_C7_witness :
    cssSelectorBuilder.combine (cssSelectorBuilder.element "div").2 "+"
        { line := "a", partsPresence := [9, 9, 9, 9, 9, 9] }
      = cssSelectorBuilder.combine (cssSelectorBuilder.element "div").2 "+"
          (cssSelectorBuilder.element "a").2 :=
  (claim_C7_combine_frame (cssSelectorBuilder.element "div").2
      (cssSelectorBuilder.element "a").2 "+").2.2
    { line := "a", partsPresence := [9, 9, 9, 9, 9, 9] } (by decide)

lemma isDigit_char_ofNat (d : Nat) (hd : d < 10) : (Char.ofNat (48 + d)).isDigit = true := by
  interval_cases d <;> decide

lemma toNat_char_ofNat (d : Nat) (hd : d < 10) : (Char.ofNat (48 + d)).toNat - 48 = d := by
  interval_cases d <;> decide

lemma natChars_ne_nil (n : Nat) : natChars n ≠ [] := by
  rw [natChars]
  split <;> simp

lemma natChars_all_digits (n : Nat) : ∀ c ∈ natChars n, c.isDigit = true := by
  induction n using Nat.strong_induction_on with
  | _ n ih =>
    rw [natChars]
    split
    · rename_i h
      intro c hc
      simp at hc
      rw [hc]
      exact isDigit_char_ofNat n h
    · intro c hc
      simp at hc
      rcases hc with hc | hc
      · exact ih (n / 10) (Nat.div_lt_self (by omega) (by omega)) c hc
      · rw [hc]
        exact isDigit_char_ofNat (n % 10) (Nat.mod_lt _ (by omega))

lemma digitsVal_append_last (l : List Char) (c : Char) :
    digitsVal (l ++ [c]) = digitsVal l * 10 + (c.toNat - 48) := by
  simp [digitsVal, List.foldl_append]

lemma digitsVal_natChars (n : Nat) : digitsVal (natChars n) = n := by
  induction n using Nat.strong_induction_on with
  | _ n ih =>
    rw [natChars]
    split
    · rename_i h
      simp [digitsVal]
      exact toNat_char_ofNat n h
    · rw [digitsVal_append_last, ih (n / 10) (Nat.div_lt_self (by omega) (by omega)),
        toNat_char_ofNat (n % 10) (Nat.mod_lt _ (by omega))]
      omega

lemma takeWhile_append_all {α : Type} (p : α → Bool) (l r : List α)
    (hl : ∀ c ∈ l, p c = true) (hr : ∀ c, r.head? = some c → p c = false) :
    (l ++ r).takeWhile p = l ∧ (l ++ r).dropWhile p = r := by
  induction l with
  | nil =>
    simp only [List.nil_append]
    cases r with
    | nil => simp
    | cons c r' =>
      have := hr c rfl
      simp [List.takeWhile_cons, List.dropWhile_cons, this]
  | cons a l' ih =>
    have ha := hl a (by simp)
    have hrec := ih (fun c hc => hl c (by simp [hc]))
    simp [List.takeWhile_cons, List.dropWhile_cons, ha, hrec.1, hrec.2]

lemma natChars_head (n : Nat) :
    ∃ c t, natChars n = c :: t ∧ c.isDigit = true := by
  rcases hn : natChars n with _ | ⟨c, t⟩
  · exact absurd hn (natChars_ne_nil n)
  · exact ⟨c, t, rfl, natChars_all_digits n c (by rw [hn]; simp)⟩

lemma parseNatNum_natChars (n : Nat) (rest : List Char)
    (hrest : ∀ c, rest.head? = some c → c.isDigit = false) :
    parseNatNum (natChars n ++ rest) = some (n, rest) := by
  obtain ⟨htake, hdrop⟩ :=
    takeWhile_append_all (fun c => c.isDigit) (natChars n) rest (natChars_all_digits n) hrest
  rw [parseNatNum]
  simp only [htake, hdrop]
  rw [if_neg (natChars_ne_nil n), digitsVal_natChars]

lemma parseNumber_intChars (n : Int) (rest : List Char)
    (hrest : ∀ c, rest.head? = some c → c.isDigit = false) :
    parseNumber (intChars n ++ rest) = some (n, rest) := by
  rw [intChars]
  split
  · rename_i hneg
    rw [List.cons_append, parseNumber]
    simp only [List.head?_cons, List.tail_cons, if_pos rfl]
    rw [parseNatNum_natChars n.natAbs rest hrest]
    simp only [Option.map_some']
    rw [show (-(n.natAbs : Int)) = n by omega]
    simp
  · rename_i hpos
    obtain ⟨c, t, hct, hc⟩ := natChars_head n.toNat
    rw [parseNumber]
    have hhead : (natChars n.toNat ++ rest).head? = some c := by
      rw [hct]; rfl
    rw [if_neg (by
      rw [hhead]
      intro h
      have : c = '-' := by injection h
      rw [this] at hc
      exact absurd hc (by decide))]
    rw [parseNatNum_natChars n.toNat rest hrest]
    simp only [Option.map_some']
    rw [show ((n.toNat : Int)) = n by omega]

lemma parseStrChars_esc (s : List Char) (rest : List Char) :
    parseStrChars (escChars s ++ '"' :: rest) = some (s, rest) := by
  induction s with
  | nil =>
    rw [escChars, List.nil_append, parseStrChars.eq_def]
    simp
  | cons c cs ih =>
    rw [escChars, escChar]
    split
    · simp only [List.cons_append, List.nil_append, List.append_assoc]
      rw [parseStrChars.eq_def]
      simp [ih]
    · rename_i hc
      push_neg at hc
      simp only [List.cons_append, List.nil_append, List.append_assoc]
      rw [parseStrChars.eq_def]
      simp [hc.1, hc.2, ih]

lemma parseStringBody_rt (s : String) (rest : List Char) :
    parseStringBody (escChars s.data ++ '"' :: rest) = some (s, rest) := by
  rw [parseStringBody, parseStrChars_esc]
  rfl

lemma intChars_head (n : Int) :
    ∃ c t, intChars n = c :: t ∧ (c = '-' ∨ c.isDigit = true) := by
  rw [intChars]
  split
  · exact ⟨'-', _, rfl, Or.inl rfl⟩
  · obtain ⟨c, t, hct, hc⟩ := natChars_head n.toNat
    exact ⟨c, t, hct, Or.inr hc⟩

lemma serJ_head (v : JsonValue) :
    ∃ c t, serJ v = c :: t ∧
      (c = 'n' ∨ c = 't' ∨ c = 'f' ∨ c = '"' ∨ c = '[' ∨ c = '{' ∨ c = '-' ∨
        c.isDigit = true) := by
  cases v with
  | null => exact ⟨'n', _, rfl, by simp⟩
  | bool b =>
    cases b with
    | false => exact ⟨'f', _, rfl, by simp⟩
    | true => exact ⟨'t', _, rfl, by simp⟩
  | num n =>
    obtain ⟨c, t, hct, hc⟩ := intChars_head n
    refine ⟨c, t, ?_, ?_⟩
    · rw [serJ, hct]
    · rcases hc with hc | hc
      · exact Or.inr (Or.inr (Or.inr (Or.inr (Or.inr (Or.inr (Or.inl hc))))))
      · exact Or.inr (Or.inr (Or.inr (Or.inr (Or.inr (Or.inr (Or.inr hc))))))
  | str s => exact ⟨'"', _, rfl, by simp⟩
  | arr items =>
    cases items with
    | nil => exact ⟨'[', _, rfl, by simp⟩
    | cons v vs => exact ⟨'[', _, rfl, by simp⟩
  | obj fields =>
    cases fields with
    | nil => exact ⟨'{', _, rfl, by simp⟩
    | cons f fs => exact ⟨'{', _, rfl, by simp⟩

lemma digit_not_special (c : Char) (h : c.isDigit = true) :
    c ≠ 'n' ∧ c ≠ 't' ∧ c ≠ 'f' ∧ c ≠ '"' ∧ c ≠ '[' ∧ c ≠ '{' ∧ c ≠ ']' ∧ c ≠ '}' := by
  refine ⟨?_, ?_, ?_, ?_, ?_, ?_, ?_, ?_⟩ <;>
    (rintro rfl; exact absurd h (by decide))

lemma jsize_pos (v : JsonValue) : 1 ≤ jsize v := by
  cases v <;> simp [jsize]

lemma serItemsTail_head_not_digit (vs : List JsonValue) (rest : List Char) :
    ∀ c, (serItemsTail vs ++ ']' :: rest).head? = some c → c.isDigit = false := by
  cases vs with
  | nil =>
    intro c h
    rw [serItemsTail] at h
    have hc : c = ']' := by simpa [eq_comm] using h
    simp [hc]
  | cons v' vs' =>
    intro c h
    rw [serItemsTail] at h
    have hc : c = ',' := by simpa [eq_comm] using h
    simp [hc]

lemma serFieldsTail_head_not_digit (fs : List (String × JsonValue)) (rest : List Char) :
    ∀ c, (serFieldsTail fs ++ '}' :: rest).head? = some c → c.isDigit = false := by
  cases fs with
  | nil =>
    intro c h
    rw [serFieldsTail] at h
    have hc : c = '}' := by simpa [eq_comm] using h
    simp [hc]
  | cons f' fs' =>
    intro c h
    rw [serFieldsTail] at h
    have hc : c = ',' := by simpa [eq_comm] using h
    simp [hc]


/-- Completeness of the parser against the serializer, by induction on the
fuel: values, nonempty item lists and nonempty field lists each parse back
from their serialized form, leaving the remainder untouched. -/
lemma parse_ser_all : ∀ fuel : Nat,
    (∀ (v : JsonValue) (rest : List Char), jsize v ≤ fuel →
      (∀ c, rest.head? = some c → c.isDigit = false) →
      parseVal fuel (serJ v ++ rest) = some (v, rest)) ∧
    (∀ (v : JsonValue) (vs : List JsonValue) (rest : List Char),
      1 + jsize v + jsizeItems vs ≤ fuel →
      parseItems fuel (serJ v ++ (serItemsTail vs ++ (']' :: rest))) = some (v :: vs, rest)) ∧
    (∀ (k : String) (v : JsonValue) (fs : List (String × JsonValue)) (rest : List Char),
      1 + jsize v + jsizeFields fs ≤ fuel →
      parseFields fuel (serField (k, v) ++ (serFieldsTail fs ++ ('}' :: rest)))
        = some ((k, v) :: fs, rest)) := by
  intro fuel
  induction fuel with
  | zero =>
    refine ⟨?_, ?_, ?_⟩
    · intro v rest hsz _
      exact absurd hsz (by have := jsize_pos v; omega)
    · intro v vs rest hsz
      exact absurd hsz (by omega)
    · intro k v fs rest hsz
      exact absurd hsz (by omega)
  | succ fuel ih =>
    obtain ⟨ihA, ihB, ihC⟩ := ih
    refine ⟨?_, ?_, ?_⟩
    · intro v rest hsz hrest
      cases v with
      | null => simp [serJ, parseVal]
      | bool b => cases b with
        | false => simp [serJ, parseVal]
        | true => simp [serJ, parseVal]
      | num n =>
        obtain ⟨c, t, hct, hc⟩ := intChars_head n
        have hspec : c ≠ 'n' ∧ c ≠ 't' ∧ c ≠ 'f' ∧ c ≠ '"' ∧ c ≠ '[' ∧ c ≠ '{' := by
          rcases hc with rfl | hdig
          · exact ⟨by decide, by decide, by decide, by decide, by decide, by decide⟩
          · obtain ⟨h1, h2, h3, h4, h5, h6, -, -⟩ := digit_not_special c hdig
            exact ⟨h1, h2, h3, h4, h5, h6⟩
        obtain ⟨hn, ht, hf, hq, hlb, hcb⟩ := hspec
        have hpn : parseNumber (c :: (t ++ rest)) = some (n, rest) := by
          rw [← List.cons_append, ← hct]
          exact parseNumber_intChars n rest hrest
        simp [serJ, hct, parseVal, hn, ht, hf, hq, hlb, hcb, hpn]
      | str s =>
        have hsb := parseStringBody_rt s rest
        simp [serJ, parseVal, hsb]
      | arr items =>
        cases items with
        | nil => simp [serJ, parseVal]
        | cons v vs =>
          obtain ⟨c, t, hct, hc8⟩ := serJ_head v
          have hcne : c ≠ ']' := by
            rcases hc8 with rfl | rfl | rfl | rfl | rfl | rfl | rfl | hdig
            · decide
            · decide
            · decide
            · decide
            · decide
            · decide
            · decide
            · exact (digit_not_special c hdig).2.2.2.2.2.2.1
          rw [jsize, jsizeItems] at hsz
          have hIB := ihB v vs rest (by omega)
          rw [hct] at hIB
          simp only [List.cons_append, List.append_assoc] at hIB
          simp [serJ, parseVal, hct, hcne, hIB]
      | obj fields =>
        cases fields with
        | nil => simp [serJ, parseVal]
        | cons f fs =>
          rw [jsize, jsizeFields] at hsz
          obtain ⟨k, v⟩ := f
          have hIC := ihC k v fs rest (by simp at hsz; omega)
          simp only [serField, List.cons_append, List.append_assoc] at hIC
          simp [serJ, serField, parseVal, hIC]
    · intro v vs rest hsz
      rw [parseItems]
      rw [ihA v (serItemsTail vs ++ ']' :: rest) (by have := jsize_pos v; omega)
        (serItemsTail_head_not_digit vs rest)]
      cases vs with
      | nil =>
        rw [serItemsTail]
        simp
      | cons v' vs' =>
        rw [jsizeItems] at hsz
        have hIB := ihB v' vs' rest (by have := jsize_pos v; omega)
        rw [serItemsTail]
        simp [hIB]
    · intro k v fs rest hsz
      rw [parseFields]
      have hsb := parseStringBody_rt k (':' :: (serJ v ++ (serFieldsTail fs ++ '}' :: rest)))
      have hIA := ihA v (serFieldsTail fs ++ '}' :: rest) (by have := jsize_pos v; omega)
        (serFieldsTail_head_not_digit fs rest)
      cases fs with
      | nil =>
        rw [serFieldsTail] at hsb hIA ⊢
        simp only [List.nil_append] at hsb hIA
        simp [serField, hsb, hIA]
      | cons f' fs' =>
        rw [jsizeFields] at hsz
        obtain ⟨k', v'⟩ := f'
        have hIC := ihC k' v' fs' rest
          (by have := jsize_pos v; simp at hsz; omega)
        rw [serFieldsTail] at hsb hIA ⊢
        simp only [serField, List.cons_append, List.append_assoc] at hsb hIA hIC
        simp [serField, hsb, hIA, hIC]

/-- The serialized text is at least as long as the structural size, so the
fuel `parseJson` allots always suffices. -/
lemma jsize_le_serJ_length : ∀ n : Nat,
    (∀ v : JsonValue, jsize v ≤ n → jsize v ≤ (serJ v).length) ∧
    (∀ vs : List JsonValue, jsizeItems vs ≤ n → jsizeItems vs ≤ (serItemsTail vs).length) ∧
    (∀ fs : List (String × JsonValue),
      jsizeFields fs ≤ n → jsizeFields fs ≤ (serFieldsTail fs).length) := by
  intro n
  induction n with
  | zero =>
    refine ⟨?_, ?_, ?_⟩
    · intro v hv
      exact absurd hv (by have := jsize_pos v; omega)
    · intro vs hvs
      cases vs with
      | nil => simp [jsizeItems]
      | cons v vs' => rw [jsizeItems] at hvs; exact absurd hvs (by have := jsize_pos v; omega)
    · intro fs hfs
      cases fs with
      | nil => simp [jsizeFields]
      | cons f fs' =>
        rw [jsizeFields] at hfs
        exact absurd hfs (by have := jsize_pos f.2; omega)
  | succ n ih =>
    obtain ⟨ihV, ihI, ihF⟩ := ih
    refine ⟨?_, ?_, ?_⟩
    · intro v hv
      cases v with
      | null => simp [jsize, serJ]
      | bool b => cases b with
        | false => simp [jsize, serJ]
        | true => simp [jsize, serJ]
      | num m =>
        rw [jsize, serJ, intChars]
        split
        · simp
        · have h := natChars_ne_nil m.toNat
          have := List.length_pos.mpr h
          omega
      | str s => simp [jsize, serJ]
      | arr items =>
        cases items with
        | nil => simp [jsize, jsizeItems, serJ]
        | cons v vs =>
          rw [jsize] at hv ⊢
          have hitems : jsizeItems (v :: vs) ≤ (serItemsTail (v :: vs)).length :=
            ihI (v :: vs) (by omega)
          rw [jsizeItems] at hitems ⊢
          rw [serItemsTail] at hitems
          simp [serJ] at hitems ⊢
          omega
      | obj fields =>
        cases fields with
        | nil => simp [jsize, jsizeFields, serJ]
        | cons f fs =>
          rw [jsize] at hv ⊢
          have hfields : jsizeFields (f :: fs) ≤ (serFieldsTail (f :: fs)).length :=
            ihF (f :: fs) (by omega)
          rw [jsizeFields] at hfields ⊢
          rw [serFieldsTail] at hfields
          simp [serJ] at hfields ⊢
          omega
    · intro vs hvs
      cases vs with
      | nil => simp [jsizeItems]
      | cons v vs' =>
        rw [jsizeItems] at hvs ⊢
        have h1 : jsize v ≤ (serJ v).length := ihV v (by omega)
        have h2 : jsizeItems vs' ≤ (serItemsTail vs').length := ihI vs' (by omega)
        rw [serItemsTail]
        simp
        omega
    · intro fs hfs
      cases fs with
      | nil => simp [jsizeFields]
      | cons f fs' =>
        rw [jsizeFields] at hfs ⊢
        have h1 : jsize f.2 ≤ (serJ f.2).length := ihV f.2 (by omega)
        have h2 : jsizeFields fs' ≤ (serFieldsTail fs').length := ihF fs' (by omega)
        rw [serFieldsTail]
        obtain ⟨k, v⟩ := f
        simp [serField] at h1 h2 ⊢
        omega

/-- Serialize-then-parse is the identity on plain data. -/
lemma parseJson_serialize (v : JsonValue) :
    parseJson (serialize v) = some v := by
  have hlen : jsize v ≤ (serJ v).length + 1 := by
    have := (jsize_le_serJ_length (jsize v)).1 v le_rfl
    omega
  have hp := (parse_ser_all ((serJ v).length + 1)).1 v [] hlen
    (by intro c hc; simp at hc)
  rw [List.append_nil] at hp
  have hunfold : parseJson (serialize v)
      = (match parseVal ((serJ v).length + 1) (serJ v) with
          | some (w, []) => some w
          | _ => none) := rfl
  rw [hunfold, hp]

/-- C8: for every plain data value and every capability/prototype, the
round trip `fromJSON(P, getJSON(v))` succeeds and yields an object whose
data fields equal those of `v` and whose prototype is `P`'s behaviour
set. -/
theorem claim_C8_serialize_roundtrip :
    ∀ (P : Type) (proto : P) (v : JsonValue),
      fromJSON P proto (getJSON v) = some { fields := v, proto := proto } := by
  intro P proto v
  rw [fromJSON, getJSON, parseJson_serialize v]
  rfl
